import Mathlib

/-!
# Verification of the `IChingScorer` lottery-scoring utility

Shallow embedding of `src/i_ching_scorer.py` (class `IChingScorer`).
Python floats are modelled by exact rationals (`ℚ`); Python `dict`s by
association lists with `find?`-based lookup; fallible operations
(`dict[key]` access, division that can raise `ZeroDivisionError`,
`statistics.mean` on an empty list) by `Option`.  Methods that read or
update object state are functions on an explicit `ScorerState`, returning
the Python return value paired with the post-call state.

One deliberate convention: where Python raises `ZeroDivisionError` inside
`calculate_probabilities` (total weight zero), the embedding keeps the
rational division, and Lean's `x / 0 = 0` marks the degenerate output; the
fact that the total is `0` at such inputs is proved separately where it
matters.  All other Python failure points are modelled as `none`.
-/

namespace IChing

/-- Python `dict` lookup `d[k]` on an association list: the value at the
first matching key, or `none` (Python: `KeyError`). -/
def alookup {κ β : Type} [BEq κ] (d : List (κ × β)) (k : κ) : Option β :=
  (d.find? (fun p => p.1 == k)).map (fun p => p.2)

/-- Python `dict.get(k, dflt)` on an association list. -/
def aget {κ β : Type} [BEq κ] (d : List (κ × β)) (k : κ) (dflt : β) : β :=
  (alookup d k).getD dflt

/-- Total number of occurrences of `i` across all historical draws: the
`Counter` built by repeated `counts.update(draw)` in
`IChingScorer._compute_frequencies`, queried at `i`. -/
def countOcc (draws : List (List ℤ)) (i : ℤ) : ℕ :=
  (draws.map (fun d => d.count i)).sum

/-- `IChingScorer._compute_frequencies`:
`{i: counts.get(i, 0) for i in range(1, self.num_numbers + 1)}`. -/
def compute_frequencies (N : ℕ) (draws : List (List ℤ)) : List (ℤ × ℕ) :=
  (List.range N).map (fun (j : ℕ) => ((j : ℤ) + 1, countOcc draws ((j : ℤ) + 1)))

/-- The five-element multiplier `i % 5 or 5` from
`IChingScorer.calculate_probabilities`. -/
def modifier (i : ℕ) : ℕ :=
  if i % 5 = 0 then 5 else i % 5

/-- The `weighted` dict of `IChingScorer.calculate_probabilities`:
`weighted[i] = (frequencies.get(i, 0) + smoothing) * modifier` for
`i` in `range(1, N + 1)`. -/
def weightedList (N : ℕ) (freqs : List (ℤ × ℕ)) (s : ℚ) : List (ℤ × ℚ) :=
  (List.range N).map (fun (j : ℕ) =>
    ((j : ℤ) + 1, (((aget freqs ((j : ℤ) + 1) 0 : ℕ) : ℚ) + s) * (modifier (j + 1) : ℚ)))

/-- The running `total` accumulated in `IChingScorer.calculate_probabilities`. -/
def totalWeight (N : ℕ) (freqs : List (ℤ × ℕ)) (s : ℚ) : ℚ :=
  ((weightedList N freqs s).map (fun p => p.2)).sum

/-- The dict `{i: v / total for i, v in weighted.items()}` produced by
`IChingScorer.calculate_probabilities` from given frequencies and smoothing. -/
def calcProbsFrom (N : ℕ) (freqs : List (ℤ × ℕ)) (s : ℚ) : List (ℤ × ℚ) :=
  (weightedList N freqs s).map (fun p => (p.1, p.2 / totalWeight N freqs s))

/-- The mutable state of an `IChingScorer` instance: the fields assigned in
`IChingScorer.__init__`. -/
structure ScorerState where
  numNumbers : ℕ
  historicalDraws : List (List ℤ)
  smoothing : ℚ
  frequencies : List (ℤ × ℕ)
  probabilities : List (ℤ × ℚ)

/-- `IChingScorer.__init__(config, historical_draws, smoothing)` with
`config = {"num_lotto_numbers": N}`: stores the draws and smoothing, computes
`self.frequencies`, then `self.probabilities = self.calculate_probabilities()`. -/
def init (N : ℕ) (draws : List (List ℤ)) (smoothing : ℚ) : ScorerState :=
  { numNumbers := N
    historicalDraws := draws
    smoothing := smoothing
    frequencies := compute_frequencies N draws
    probabilities := calcProbsFrom N (compute_frequencies N draws) smoothing }

/-- `IChingScorer.calculate_probabilities(smoothing=None)` as a state
transformer: uses `self.smoothing` when the argument is omitted, recomputes
from the stored frequencies, stores the result in `self.probabilities`, and
returns it. -/
def calculate_probabilities (st : ScorerState) (smoothingArg : Option ℚ) :
    List (ℤ × ℚ) × ScorerState :=
  let s := smoothingArg.getD st.smoothing
  let probs := calcProbsFrom st.numNumbers st.frequencies s
  (probs, { st with probabilities := probs })

/-- The pure computation of `IChingScorer.ensemble_probabilities`: copy the
stored probabilities, multiply by `tw.get(i, 1.0)` when the temporal mapping
is truthy and by `ml.get(i, 1.0)` when the ML mapping is truthy, then divide
by the total.  An omitted mapping (`None`) and an empty dict are both falsy
in `if temporal_weights:`, so both are modelled by the empty list. -/
def ensembleProbs (probs tw ml : List (ℤ × ℚ)) : List (ℤ × ℚ) :=
  let combined := probs.map (fun p =>
    let v1 := if tw.isEmpty then p.2 else p.2 * aget tw p.1 1
    let v2 := if ml.isEmpty then v1 else v1 * aget ml p.1 1
    (p.1, v2))
  let total := (combined.map (fun p => p.2)).sum
  combined.map (fun p => (p.1, p.2 / total))

/-- `IChingScorer.ensemble_probabilities` as a state transformer: it works on
a copy of the stored probabilities and assigns no attribute, so the state is
returned unchanged. -/
def ensemble_probabilities (st : ScorerState) (tw ml : List (ℤ × ℚ)) :
    List (ℤ × ℚ) × ScorerState :=
  (ensembleProbs st.probabilities tw ml, st)

/-- `statistics.mean`: raises (`StatisticsError`) on an empty list. -/
def meanQ (l : List ℚ) : Option ℚ :=
  if l.isEmpty then none else some (l.sum / (l.length : ℚ))

/-- A list comprehension whose element expression can raise: `none` as soon
as any element fails, otherwise the list of results. -/
def optionMap {α β : Type} (f : α → Option β) : List α → Option (List β)
  | [] => some []
  | a :: l =>
    match f a, optionMap f l with
    | some b, some bs => some (b :: bs)
    | _, _ => none

/-- The pure computation of `IChingScorer.score`:
`mean([self.probabilities[num] for num in number_set])`, where the dict
access and the empty mean can both fail. -/
def scoreVal (probs : List (ℤ × ℚ)) (numberSet : List ℤ) : Option ℚ :=
  match optionMap (fun n => alookup probs n) numberSet with
  | some vals => meanQ vals
  | none => none

/-- `IChingScorer.score` as a state transformer (it assigns no attribute). -/
def score (st : ScorerState) (numberSet : List ℤ) : Option ℚ × ScorerState :=
  (scoreVal st.probabilities numberSet, st)

/-- One scoring record appended to `scores` in
`IChingScorer.score_prediction_sets`. -/
structure SetScore where
  set : List ℤ
  score : ℚ
  spread : ℚ
  sumScore : ℚ
  freqScore : ℚ
  recentScore : ℚ

/-- The default component weights of `IChingScorer.score_prediction_sets`,
used exactly when the `weights` argument is `None`. -/
def defaultWeights : List (String × ℚ) :=
  [("spread", 1/4), ("sum", 1/4), ("frequency", 1/4), ("recent", 1/4)]

/-- The sum-balance component:
`1 - abs(sum(s_sorted) - expected_sum) / expected_sum` with
`expected_sum = (max_number + 1) / 2 * k`. -/
def sumBalanceScore (N : ℕ) (s : List ℤ) : ℚ :=
  let expectedSum : ℚ := ((N : ℚ) + 1) / 2 * (s.length : ℚ)
  1 - |((s.sum : ℚ)) - expectedSum| / expectedSum

/-- The recency component: `1 - len(set(s) & recent_numbers) / k` when the
accumulated `recent_numbers` set is truthy (non-empty), else `1.0`. -/
def recencyScore (s : List ℤ) (recentNumbers : Finset ℤ) : ℚ :=
  if recentNumbers.Nonempty then
    1 - ((s.toFinset ∩ recentNumbers).card : ℚ) / (s.length : ℚ)
  else 1

/-- The composite line of `IChingScorer.score_prediction_sets`:
`weights["spread"] * spread + weights["sum"] * sum + weights["frequency"] *
freq + weights["recent"] * recent`, each dict access fallible. -/
def combineWeighted (w : List (String × ℚ)) (sp su fr re : ℚ) : Option ℚ :=
  match alookup w "spread", alookup w "sum", alookup w "frequency", alookup w "recent" with
  | some a, some b, some c, some d => some (a * sp + b * su + c * fr + d * re)
  | _, _, _, _ => none

/-- The body of the `for s in candidate_sets` loop of
`IChingScorer.score_prediction_sets`.  The two guards mark the Python
division-by-zero points: `spread_score` divides by `max_number` when the set
has more than one element, and `sum_score` divides by `expected_sum`, which
is zero exactly when the candidate set is empty. -/
def scoreOneSet (N : ℕ) (probs : List (ℤ × ℚ)) (recentNumbers : Finset ℤ)
    (w : List (String × ℚ)) (s : List ℤ) : Option SetScore :=
  let sSorted := s.mergeSort (fun a b => decide (a ≤ b))
  let k := sSorted.length
  let expectedSum : ℚ := ((N : ℚ) + 1) / 2 * (k : ℚ)
  if 1 < k ∧ N = 0 then none
  else if expectedSum = 0 then none
  else
    let spreadScore : ℚ :=
      if 1 < k then ((sSorted.getLast?.getD 0 - sSorted.headI : ℤ) : ℚ) / (N : ℚ)
      else 0
    let sumScore := sumBalanceScore N sSorted
    match optionMap (fun n => alookup probs n) sSorted with
    | none => none
    | some vals =>
      let freqScore := vals.sum / (k : ℚ)
      let recentScore := recencyScore sSorted recentNumbers
      match combineWeighted w spreadScore sumScore freqScore recentScore with
      | none => none
      | some final =>
        some { set := sSorted
               score := final
               spread := spreadScore
               sumScore := sumScore
               freqScore := freqScore
               recentScore := recentScore }

/-- The pure computation of `IChingScorer.score_prediction_sets`: defaulted
weights, accumulation of `recent_numbers` from the (optional, possibly
falsy) `recent_draws`, and the per-set loop. -/
def scorePredictionSetsVal (N : ℕ) (probs : List (ℤ × ℚ))
    (candidateSets : List (List ℤ)) (recentDraws : Option (List (List ℤ)))
    (weights : Option (List (String × ℚ))) : Option (List SetScore) :=
  let w := weights.getD defaultWeights
  let recentNumbers := ((recentDraws.getD []).flatten).toFinset
  optionMap (scoreOneSet N probs recentNumbers w) candidateSets

/-- `IChingScorer.score_prediction_sets` as a state transformer (it assigns
no attribute). -/
def score_prediction_sets (st : ScorerState) (candidateSets : List (List ℤ))
    (recentDraws : Option (List (List ℤ))) (weights : Option (List (String × ℚ))) :
    Option (List SetScore) × ScorerState :=
  (scorePredictionSetsVal st.numNumbers st.probabilities candidateSets recentDraws weights, st)

/-! ## General lemmas about the probability pipeline -/

lemma sum_map_div (l : List ℚ) (t : ℚ) :
    (l.map (fun x => x / t)).sum = l.sum / t := by
  induction l with
  | nil => simp
  | cons a l ih => simp [ih, add_div]

lemma calcProbsFrom_keys (N : ℕ) (freqs : List (ℤ × ℕ)) (s : ℚ) :
    (calcProbsFrom N freqs s).map (fun p => p.1)
      = (List.range N).map (fun (j : ℕ) => (j : ℤ) + 1) := by
  simp [calcProbsFrom, weightedList, List.map_map, Function.comp]

lemma calcProbsFrom_sum (N : ℕ) (freqs : List (ℤ × ℕ)) (s : ℚ)
    (h : totalWeight N freqs s ≠ 0) :
    ((calcProbsFrom N freqs s).map (fun p => p.2)).sum = 1 := by
  have h1 : (calcProbsFrom N freqs s).map (fun p => p.2)
      = ((weightedList N freqs s).map (fun p => p.2)).map
          (fun x => x / totalWeight N freqs s) := by
    simp [calcProbsFrom, List.map_map, Function.comp]
  rw [h1, sum_map_div]
  exact div_self h

lemma modifier_pos (i : ℕ) : 0 < modifier i := by
  unfold modifier
  split <;> omega

lemma totalWeight_eq_finset_sum (N : ℕ) (freqs : List (ℤ × ℕ)) (s : ℚ) :
    totalWeight N freqs s
      = ∑ j ∈ Finset.range N,
          (((aget freqs ((j : ℤ) + 1) 0 : ℕ) : ℚ) + s) * (modifier (j + 1) : ℚ) := by
  unfold totalWeight weightedList
  rw [List.map_map]
  rfl

lemma find?_rangeMap {β : Type} (g : ℤ → β) (N j : ℕ) (hj : j < N) :
    List.find? (fun p => p.1 == (j : ℤ) + 1)
        ((List.range N).map (fun (t : ℕ) => ((t : ℤ) + 1, g ((t : ℤ) + 1))))
      = some ((j : ℤ) + 1, g ((j : ℤ) + 1)) := by
  induction N with
  | zero => omega
  | succ n ih =>
    rw [List.range_succ, List.map_append, List.find?_append]
    by_cases hc : j < n
    · rw [ih hc]
      rfl
    · have hj_eq : j = n := by omega
      subst hj_eq
      have hnone : List.find? (fun p => p.1 == (j : ℤ) + 1)
          ((List.range j).map (fun (t : ℕ) => ((t : ℤ) + 1, g ((t : ℤ) + 1)))) = none := by
        rw [List.find?_eq_none]
        intro x hx
        rcases List.mem_map.mp hx with ⟨t, ht, rfl⟩
        have htj : t < j := List.mem_range.mp ht
        simp only [beq_iff_eq]
        intro hEq
        omega
      rw [hnone]
      simp [List.find?]

lemma aget_compute_frequencies (N : ℕ) (draws : List (List ℤ)) (j : ℕ) (hj : j < N) :
    aget (compute_frequencies N draws) ((j : ℤ) + 1) 0 = countOcc draws ((j : ℤ) + 1) := by
  unfold aget alookup compute_frequencies
  rw [find?_rangeMap (fun i => countOcc draws i) N j hj]
  rfl

lemma totalWeight_pos (N : ℕ) (draws : List (List ℤ)) (s : ℚ)
    (hN : 1 ≤ N) (hs : 0 ≤ s)
    (h : 0 < s ∨ ∃ i : ℕ, 1 ≤ i ∧ i ≤ N ∧ 0 < countOcc draws (i : ℤ)) :
    0 < totalWeight N (compute_frequencies N draws) s := by
  rw [totalWeight_eq_finset_sum]
  apply Finset.sum_pos'
  · intro j _
    exact mul_nonneg (add_nonneg (Nat.cast_nonneg _) hs) (Nat.cast_nonneg _)
  · rcases h with hspos | ⟨i, hi1, hiN, hic⟩
    · refine ⟨0, Finset.mem_range.mpr (by omega), ?_⟩
      exact mul_pos (add_pos_of_nonneg_of_pos (Nat.cast_nonneg _) hspos)
        (by exact_mod_cast modifier_pos 1)
    · refine ⟨i - 1, Finset.mem_range.mpr (by omega), ?_⟩
      have hkey : ((i - 1 : ℕ) : ℤ) + 1 = (i : ℤ) := by omega
      have hnat : (i - 1) + 1 = i := by omega
      rw [hkey, hnat]
      have hval : aget (compute_frequencies N draws) (i : ℤ) 0 = countOcc draws (i : ℤ) := by
        rw [← hkey]
        exact aget_compute_frequencies N draws (i - 1) (by omega)
      rw [hval]
      have hc : (0 : ℚ) < (countOcc draws (i : ℤ) : ℚ) := by exact_mod_cast hic
      exact mul_pos (add_pos_of_pos_of_nonneg hc hs) (by exact_mod_cast modifier_pos i)

/-! ## Claims C1 and C2 -/

/-- Claim C1 (amended): for every configuration with `N ≥ 1`, every sequence
of historical draws, and every smoothing `≥ 0` such that the smoothing is
positive or at least one number in `[1, N]` occurs in the draws (equivalently,
the total weight is non-zero), `calculate_probabilities` produces a mapping
over `[1, N]` whose values sum to exactly `1` in exact arithmetic. -/
theorem claim1_normalization (N : ℕ) (draws : List (List ℤ)) (s : ℚ)
    (hN : 1 ≤ N) (hs : 0 ≤ s)
    (h : 0 < s ∨ ∃ i : ℕ, 1 ≤ i ∧ i ≤ N ∧ 0 < countOcc draws (i : ℤ)) :
    (init N draws s).probabilities.map (fun p => p.1)
        = (List.range N).map (fun (j : ℕ) => (j : ℤ) + 1)
    ∧ ((init N draws s).probabilities.map (fun p => p.2)).sum = 1 :=
  ⟨calcProbsFrom_keys N (compute_frequencies N draws) s,
   calcProbsFrom_sum N (compute_frequencies N draws) s
     (ne_of_gt (totalWeight_pos N draws s hN hs h))⟩

/-- Witness for C1: at `N = 1`, no draws, smoothing `1`, the probabilities
sum to `1`. -/
theorem claim1_normalization_witness :
    ((init 1 ([] : List (List ℤ)) 1).probabilities.map (fun p => p.2)).sum = 1 :=
  (claim1_normalization 1 [] 1 (by norm_num) (by norm_num) (Or.inl (by norm_num))).2

/-- Counterexample to C1 as stated: with `N = 1`, no historical draws, and
smoothing `0` (allowed by the claim, which requires only `smoothing ≥ 0`),
the running total of `calculate_probabilities` is `0`: in Python the final
division raises `ZeroDivisionError` and no mapping is produced, and in exact
arithmetic (with `x / 0 = 0`) the values sum to `0`, not `1`. -/
theorem claim1_counterexample :
    totalWeight 1 (compute_frequencies 1 []) 0 = 0
    ∧ ((init 1 ([] : List (List ℤ)) 0).probabilities.map (fun p => p.2)).sum ≠ 1 := by
  constructor
  · norm_num [totalWeight, weightedList, compute_frequencies, countOcc, aget, alookup,
      modifier, List.range_succ]
  · norm_num [init, calcProbsFrom, totalWeight, weightedList, compute_frequencies,
      countOcc, aget, alookup, modifier, List.range_succ]

/-- Claim C2: for `N = 5`, draws `[[1], [5]]`, smoothing `0`, the stored
frequencies of `1` and `5` are both `1`, yet the probability of `5` (namely
`5/6`) strictly exceeds the probability of `1` (namely `1/6`): the
five-element modifier breaks the tie between equal-frequency numbers. -/
theorem claim2_modifier_tiebreak :
    alookup (init 5 [[1], [5]] 0).frequencies 1 = some 1
    ∧ alookup (init 5 [[1], [5]] 0).frequencies 5 = some 1
    ∧ alookup (init 5 [[1], [5]] 0).probabilities 1 = some (1/6)
    ∧ alookup (init 5 [[1], [5]] 0).probabilities 5 = some (5/6)
    ∧ ((1 : ℚ)/6 < 5/6) := by
  refine ⟨by decide, by decide, ?_, ?_, by norm_num⟩
  · norm_num [init, calcProbsFrom, totalWeight, weightedList, compute_frequencies,
      countOcc, aget, alookup, modifier, List.range_succ]
  · norm_num [init, calcProbsFrom, totalWeight, weightedList, compute_frequencies,
      countOcc, aget, alookup, modifier, List.range_succ]

/-! ## Claim C3: ensemble combination with neutral weights -/

/-- The mapping that assigns the multiplier `1.0` to every number in `[1, N]`. -/
def allOnes (N : ℕ) : List (ℤ × ℚ) :=
  (List.range N).map (fun (j : ℕ) => ((j : ℤ) + 1, (1 : ℚ)))

lemma allOnes_val (N : ℕ) : ∀ p ∈ allOnes N, p.2 = 1 := by
  intro p hp
  rcases List.mem_map.mp hp with ⟨j, _, rfl⟩
  rfl

lemma aget_one_of_all_one {d : List (ℤ × ℚ)} (h : ∀ p ∈ d, p.2 = 1) (i : ℤ) :
    aget d i 1 = 1 := by
  unfold aget alookup
  cases hf : d.find? (fun p => p.1 == i) with
  | none => rfl
  | some p => simpa using h p (List.mem_of_find?_eq_some hf)

lemma ensembleProbs_neutral (probs tw ml : List (ℤ × ℚ))
    (hsum : (probs.map (fun p => p.2)).sum = 1)
    (htw : tw = [] ∨ ∀ p ∈ tw, p.2 = 1) (hml : ml = [] ∨ ∀ p ∈ ml, p.2 = 1) :
    ensembleProbs probs tw ml = probs := by
  have hneutral : ∀ p : ℤ × ℚ,
      (let v1 := if tw.isEmpty then p.2 else p.2 * aget tw p.1 1
       let v2 := if ml.isEmpty then v1 else v1 * aget ml p.1 1
       ((p.1, v2) : ℤ × ℚ)) = p := by
    intro p
    have h1 : (if tw.isEmpty then p.2 else p.2 * aget tw p.1 1) = p.2 := by
      by_cases he : tw.isEmpty
      · rw [if_pos he]
      · rw [if_neg he]
        rcases htw with rfl | hall
        · simp at he
        · rw [aget_one_of_all_one hall, mul_one]
    have h2 : (if ml.isEmpty then p.2 else p.2 * aget ml p.1 1) = p.2 := by
      by_cases he : ml.isEmpty
      · rw [if_pos he]
      · rw [if_neg he]
        rcases hml with rfl | hall
        · simp at he
        · rw [aget_one_of_all_one hall, mul_one]
    show ((p.1, if ml.isEmpty then (if tw.isEmpty then p.2 else p.2 * aget tw p.1 1)
        else (if tw.isEmpty then p.2 else p.2 * aget tw p.1 1) * aget ml p.1 1) : ℤ × ℚ) = p
    rw [h1, h2]
  have hcomb : probs.map (fun p =>
      let v1 := if tw.isEmpty then p.2 else p.2 * aget tw p.1 1
      let v2 := if ml.isEmpty then v1 else v1 * aget ml p.1 1
      ((p.1, v2) : ℤ × ℚ)) = probs := by
    rw [List.map_congr_left (fun p _ => hneutral p)]
    simp
  show (probs.map (fun p =>
      let v1 := if tw.isEmpty then p.2 else p.2 * aget tw p.1 1
      let v2 := if ml.isEmpty then v1 else v1 * aget ml p.1 1
      ((p.1, v2) : ℤ × ℚ))).map (fun p => (p.1, p.2 /
        ((probs.map (fun p =>
          let v1 := if tw.isEmpty then p.2 else p.2 * aget tw p.1 1
          let v2 := if ml.isEmpty then v1 else v1 * aget ml p.1 1
          ((p.1, v2) : ℤ × ℚ))).map (fun p => p.2)).sum)) = probs
  rw [hcomb, hsum]
  simp

/-- Claim C3: for every stored probability mapping (any mapping whose values
sum to `1`, the invariant of every mapping `calculate_probabilities` stores),
calling `ensemble_probabilities` with temporal and external-model mappings
that are omitted (falsy) or assign `1.0` to every number in `[1, N]` returns
the stored probability mapping unchanged (exactly, in exact arithmetic). -/
theorem claim3_ensemble_neutral (st : ScorerState)
    (hsum : (st.probabilities.map (fun p => p.2)).sum = 1)
    (tw ml : List (ℤ × ℚ))
    (htw : tw = [] ∨ tw = allOnes st.numNumbers)
    (hml : ml = [] ∨ ml = allOnes st.numNumbers) :
    (ensemble_probabilities st tw ml).1 = st.probabilities := by
  apply ensembleProbs_neutral _ _ _ hsum
  · rcases htw with rfl | rfl
    · exact Or.inl rfl
    · exact Or.inr (allOnes_val _)
  · rcases hml with rfl | rfl
    · exact Or.inl rfl
    · exact Or.inr (allOnes_val _)

/-- Witness for C3: the scorer built from `N = 2`, draws `[[1]]`,
smoothing `1`; an omitted temporal mapping and an all-ones ML mapping leave
its stored probabilities unchanged. -/
theorem claim3_witness :
    (ensemble_probabilities (init 2 [[1]] 1) [] (allOnes 2)).1
      = (init 2 [[1]] 1).probabilities :=
  claim3_ensemble_neutral (init 2 [[1]] 1)
    (by norm_num [init, calcProbsFrom, totalWeight, weightedList, compute_frequencies,
        countOcc, aget, alookup, modifier, List.range_succ])
    [] (allOnes 2) (Or.inl rfl) (Or.inr rfl)

/-! ## Claims C4, C5 and C6 -/

/-- Claim C4: for every non-empty candidate set, if a collection of recent
draws is supplied then the recency score equals `1` minus the fraction of the
set's numbers appearing in the union of the recent draws (also when that
union is empty, where the code's truthiness shortcut and the formula agree on
`1`), and if no recent draws are supplied (the `None` default, which makes
`recent_numbers` the empty set) the recency score is exactly `1`. -/
theorem claim4_recency (s : List ℤ) (hs : s ≠ []) :
    (∀ rd : List (List ℤ),
      recencyScore s (rd.flatten.toFinset)
        = 1 - ((s.toFinset ∩ rd.flatten.toFinset).card : ℚ) / (s.length : ℚ))
    ∧ recencyScore s ((((none : Option (List (List ℤ))).getD []).flatten).toFinset) = 1 := by
  constructor
  · intro rd
    unfold recencyScore
    by_cases h : rd.flatten.toFinset.Nonempty
    · rw [if_pos h]
    · rw [if_neg h]
      have hempty : rd.flatten.toFinset = ∅ := Finset.not_nonempty_iff_eq_empty.mp h
      rw [hempty]
      simp
  · unfold recencyScore
    simp

/-- Witness for C4 (the spec's Scenario E): candidate set `[1, 2, 3]` with
recent draws `[[1, 2]]` overlaps in `2` of its `3` numbers, so the recency
score is `1/3`. -/
theorem claim4_witness :
    recencyScore [1, 2, 3] ((([[1, 2]] : List (List ℤ)).flatten).toFinset) = 1/3 := by
  rw [(claim4_recency [1, 2, 3] (by simp)).1 [[1, 2]]]
  have hcard : ((([1, 2, 3] : List ℤ).toFinset
      ∩ (([[1, 2]] : List (List ℤ)).flatten).toFinset).card) = 2 := by decide
  rw [hcard]
  norm_num

/-- Claim C5: for every non-empty candidate set against a configuration with
`N ≥ 1`, the sum-balance score equals
`1 - |actual_sum - (N+1)/2*k| / ((N+1)/2*k)`; it is exactly `1` when the
actual sum equals the expected sum, and strictly negative (not clamped) when
the deviation exceeds the expected sum. -/
theorem claim5_sum_balance (N : ℕ) (s : List ℤ) (hN : 1 ≤ N) (hs : s ≠ []) :
    sumBalanceScore N s
        = 1 - |((s.sum : ℚ)) - ((N : ℚ) + 1) / 2 * (s.length : ℚ)|
            / (((N : ℚ) + 1) / 2 * (s.length : ℚ))
    ∧ (((s.sum : ℚ)) = ((N : ℚ) + 1) / 2 * (s.length : ℚ) → sumBalanceScore N s = 1)
    ∧ (((N : ℚ) + 1) / 2 * (s.length : ℚ)
          < |((s.sum : ℚ)) - ((N : ℚ) + 1) / 2 * (s.length : ℚ)| →
        sumBalanceScore N s < 0) := by
  have hlen : (0 : ℚ) < (s.length : ℚ) := by
    exact_mod_cast List.length_pos.mpr hs
  have hE : (0 : ℚ) < ((N : ℚ) + 1) / 2 * (s.length : ℚ) := by
    have h2 : (0 : ℚ) < ((N : ℚ) + 1) / 2 := by positivity
    exact mul_pos h2 hlen
  refine ⟨rfl, ?_, ?_⟩
  · intro heq
    show (1 : ℚ) - |((s.sum : ℚ)) - ((N : ℚ) + 1) / 2 * (s.length : ℚ)|
        / (((N : ℚ) + 1) / 2 * (s.length : ℚ)) = 1
    rw [heq, sub_self, abs_zero, zero_div, sub_zero]
  · intro hgt
    have h1 : 1 < |((s.sum : ℚ)) - ((N : ℚ) + 1) / 2 * (s.length : ℚ)|
        / (((N : ℚ) + 1) / 2 * (s.length : ℚ)) := (one_lt_div hE).mpr hgt
    show (1 : ℚ) - |((s.sum : ℚ)) - ((N : ℚ) + 1) / 2 * (s.length : ℚ)|
        / (((N : ℚ) + 1) / 2 * (s.length : ℚ)) < 0
    linarith

/-- Witness for C5 (the spec's Scenario D): the set `[1, 10]` against
`N = 10` has sum `11`, exactly the expected sum `(10+1)/2*2`, so the
sum-balance score is exactly `1`. -/
theorem claim5_witness : sumBalanceScore 10 [1, 10] = 1 := by
  apply (claim5_sum_balance 10 [1, 10] (by norm_num) (by simp)).2.1
  norm_num

/-- Claim C6: the stored frequencies are never mutated after construction:
`calculate_probabilities` (with or without a smoothing override) preserves
the frequencies field and replaces only the stored probability mapping, and
`ensemble_probabilities`, `score` and `score_prediction_sets` leave the whole
state unchanged. -/
theorem claim6_frequencies_immutable (st : ScorerState) (smoothingArg : Option ℚ)
    (tw ml : List (ℤ × ℚ)) (ns : List ℤ) (cs : List (List ℤ))
    (rd : Option (List (List ℤ))) (w : Option (List (String × ℚ))) :
    (calculate_probabilities st smoothingArg).2.frequencies = st.frequencies
    ∧ (calculate_probabilities st smoothingArg).2
        = { st with probabilities := (calculate_probabilities st smoothingArg).1 }
    ∧ (ensemble_probabilities st tw ml).2 = st
    ∧ (score st ns).2 = st
    ∧ (score_prediction_sets st cs rd w).2 = st :=
  ⟨rfl, rfl, rfl, rfl, rfl⟩

/-! ## Claims C7 to C10 -/

lemma scoreOneSet_nil (N : ℕ) (probs : List (ℤ × ℚ)) (rn : Finset ℤ)
    (w : List (String × ℚ)) : scoreOneSet N probs rn w [] = none := by
  unfold scoreOneSet
  simp [List.mergeSort_nil]

lemma optionMap_eq_none_of_mem {α β : Type} (f : α → Option β) {a : α} {l : List α}
    (ha : a ∈ l) (hfa : f a = none) : optionMap f l = none := by
  induction l with
  | nil => cases ha
  | cons b l ih =>
    rcases List.mem_cons.mp ha with rfl | hmem
    · unfold optionMap
      rw [hfa]
    · unfold optionMap
      rw [ih hmem]
      cases f b <;> rfl

/-- Claim C7: an empty candidate set is a fatal precondition violation in
both entry points: `score` fails in the mean computation, and
`score_prediction_sets` fails (no scoring record is produced for the whole
call) because the per-set computation divides by the zero expected sum. -/
theorem claim7_empty_candidate (st : ScorerState) (N : ℕ) (probs : List (ℤ × ℚ))
    (rn : Finset ℤ) (w : List (String × ℚ)) (cs : List (List ℤ))
    (rd : Option (List (List ℤ))) (wOpt : Option (List (String × ℚ)))
    (hmem : [] ∈ cs) :
    (score st []).1 = none
    ∧ scoreOneSet N probs rn w [] = none
    ∧ scorePredictionSetsVal N probs cs rd wOpt = none := by
  refine ⟨rfl, scoreOneSet_nil N probs rn w, ?_⟩
  unfold scorePredictionSetsVal
  exact optionMap_eq_none_of_mem _ hmem (scoreOneSet_nil _ _ _ _)

/-- Witness for C7: the scorer with `N = 1`, no draws, smoothing `1`, fails
on the empty number set and on a candidate list containing an empty set. -/
theorem claim7_witness :
    (score (init 1 [] 1) []).1 = none
    ∧ scorePredictionSetsVal 1 (init 1 ([] : List (List ℤ)) 1).probabilities
        [[]] none none = none := by
  have h := claim7_empty_candidate (init 1 [] 1) 1
    (init 1 ([] : List (List ℤ)) 1).probabilities ∅ defaultWeights [[]] none none
    (by simp)
  exact ⟨h.1, h.2.2⟩

/-- Claim C8: calling `calculate_probabilities` with an explicit smoothing
override leaves the stored smoothing field at its construction-time value,
and the next call with no argument recomputes from that construction-time
value, not from the override. -/
theorem claim8_smoothing_override_transient (N : ℕ) (draws : List (List ℤ)) (s0 s : ℚ) :
    (calculate_probabilities (init N draws s0) (some s)).2.smoothing = s0
    ∧ (calculate_probabilities
          ((calculate_probabilities (init N draws s0) (some s)).2) none).1
        = calcProbsFrom N (compute_frequencies N draws) s0 :=
  ⟨rfl, rfl⟩

lemma countOcc_filter (N : ℕ) (draws : List (List ℤ)) (i : ℤ)
    (h1 : 1 ≤ i) (h2 : i ≤ (N : ℤ)) :
    countOcc (draws.map (fun d => d.filter (fun x => decide (1 ≤ x ∧ x ≤ (N : ℤ))))) i
      = countOcc draws i := by
  unfold countOcc
  rw [List.map_map]
  apply congrArg
  apply List.map_congr_left
  intro d _
  show (d.filter (fun x => decide (1 ≤ x ∧ x ≤ (N : ℤ)))).count i = d.count i
  exact List.count_filter (by simp [h1, h2])

/-- Claim C9: occurrences of numbers outside `[1, N]` in the historical
draws are silently ignored: the frequencies mapping has domain exactly
`{1, ..., N}`, and removing every out-of-range entry from the draws changes
neither the computed frequencies nor the computed probabilities. -/
theorem claim9_out_of_range_ignored (N : ℕ) (draws : List (List ℤ)) (s : ℚ) :
    (compute_frequencies N draws).map (fun p => p.1)
        = (List.range N).map (fun (j : ℕ) => (j : ℤ) + 1)
    ∧ compute_frequencies N
          (draws.map (fun d => d.filter (fun x => decide (1 ≤ x ∧ x ≤ (N : ℤ)))))
        = compute_frequencies N draws
    ∧ calcProbsFrom N
          (compute_frequencies N
            (draws.map (fun d => d.filter (fun x => decide (1 ≤ x ∧ x ≤ (N : ℤ)))))) s
        = calcProbsFrom N (compute_frequencies N draws) s := by
  have hfreq : compute_frequencies N
      (draws.map (fun d => d.filter (fun x => decide (1 ≤ x ∧ x ≤ (N : ℤ)))))
      = compute_frequencies N draws := by
    unfold compute_frequencies
    apply List.map_congr_left
    intro j hj
    have hj2 : j < N := List.mem_range.mp hj
    have h1 : (1 : ℤ) ≤ (j : ℤ) + 1 := by omega
    have h2 : (j : ℤ) + 1 ≤ (N : ℤ) := by omega
    rw [countOcc_filter N draws ((j : ℤ) + 1) h1 h2]
  refine ⟨?_, hfreq, by rw [hfreq]⟩
  simp [compute_frequencies, List.map_map, Function.comp]

lemma combineWeighted_eq_none {w : List (String × ℚ)}
    (h : alookup w "spread" = none ∨ alookup w "sum" = none
       ∨ alookup w "frequency" = none ∨ alookup w "recent" = none)
    (sp su fr re : ℚ) : combineWeighted w sp su fr re = none := by
  unfold combineWeighted
  rcases h with h | h | h | h <;>
    cases h1 : alookup w "spread" <;> cases h2 : alookup w "sum" <;>
    cases h3 : alookup w "frequency" <;> cases h4 : alookup w "recent" <;>
    simp_all

lemma scoreOneSet_missing_key (N : ℕ) (probs : List (ℤ × ℚ)) (rn : Finset ℤ)
    (w : List (String × ℚ)) (s : List ℤ)
    (h : alookup w "spread" = none ∨ alookup w "sum" = none
       ∨ alookup w "frequency" = none ∨ alookup w "recent" = none) :
    scoreOneSet N probs rn w s = none := by
  unfold scoreOneSet
  dsimp only
  split
  · rfl
  split
  · rfl
  split
  · rfl
  simp [combineWeighted_eq_none h]

/-- Claim C10: a caller-supplied component-weights mapping missing any of
the four keys `"spread"`, `"sum"`, `"frequency"`, `"recent"` makes the
per-set composite computation fail with a fatal key-lookup error, and the
default weights `{0.25, 0.25, 0.25, 0.25}` are used exactly when no weights
mapping is supplied at all (`None`), never to fill in missing keys. -/
theorem claim10_missing_weight_key (N : ℕ) (probs : List (ℤ × ℚ)) (rn : Finset ℤ)
    (w : List (String × ℚ)) (s : List ℤ) (cs : List (List ℤ))
    (rd : Option (List (List ℤ)))
    (h : alookup w "spread" = none ∨ alookup w "sum" = none
       ∨ alookup w "frequency" = none ∨ alookup w "recent" = none) :
    scoreOneSet N probs rn w s = none
    ∧ scorePredictionSetsVal N probs cs rd none
        = scorePredictionSetsVal N probs cs rd (some defaultWeights) :=
  ⟨scoreOneSet_missing_key N probs rn w s h, rfl⟩

/-- Witness for C10: a weights mapping holding only the `"sum"` key makes
the scoring of the singleton candidate set `[1]` fail. -/
theorem claim10_witness :
    scoreOneSet 5 (init 5 [[1], [5]] 0).probabilities ∅ [("sum", 1/4)] [1] = none :=
  (claim10_missing_weight_key 5 (init 5 [[1], [5]] 0).probabilities ∅
    [("sum", 1/4)] [1] [] none (Or.inl rfl)).1

end IChing
